import Mathlib

/-!
Shallow embedding of the vehicle image labeler (`app.py`).

Paths are modeled relative to the application base directory `BASE_DIR`
(`os.path.join(BASE_DIR, p)` is the identity in this relative view; only
relative request paths are in scope).  The filesystem is a finite
association list from resolved relative paths to file contents; a key
beginning with `../` denotes a file outside the base directory.  Every
filesystem primitive resolves its path argument first (`normPath`), the
way the operating system resolves `.` and `..` segments.  Directories are
not tracked (`os.makedirs` has no observable effect on the file map), and
the only modeled failure of `shutil.move` is a missing source file, which
the `try/except` of `move_image` turns into a `None` result.
-/

/-- Replace every occurrence of the character `a` by `b`; models Python
`str.replace` for single-character arguments. -/
def replaceChar (s : String) (a b : Char) : String :=
  ⟨s.data.map (fun c => if c = a then b else c)⟩

/-- Models `source_path.replace('\\', '/')` (app.py line 111). -/
def toSlashes (s : String) : String := replaceChar s '\\' '/'

/-- The label cleaning step of `move_image` (app.py lines 125-127):
`new_label.replace('/', '_').replace('\\', '_')`. -/
def sanitize (s : String) : String := replaceChar (replaceChar s '/' '_') '\\' '_'

/-- Python `str.startswith`. -/
def strStartsWith (s p : String) : Bool := p.data.isPrefixOf s.data

/-- Python slicing `s[n:]`. -/
def strDrop (s : String) (n : Nat) : String := ⟨s.data.drop n⟩

/-- `os.path.basename` on a forward-slash path: everything after the last
separator. -/
def pyBasename (s : String) : String :=
  ⟨(s.data.reverse.takeWhile (fun c => c != '/')).reverse⟩

/-- `os.path.dirname` on a forward-slash path: everything up to the last
separator, trailing separators stripped unless the head is all
separators. -/
def pyDirname (s : String) : String :=
  let headRev := s.data.reverse.dropWhile (fun c => c != '/')
  let stripped := headRev.dropWhile (fun c => c == '/')
  if stripped.isEmpty then ⟨headRev.reverse⟩ else ⟨stripped.reverse⟩

/-- The extension component of `posixpath.splitext`: the part of the
basename from its last dot on, except that a basename consisting of dots
followed by a final run of non-dot characters (e.g. `.bashrc`) has no
extension. -/
def pyExt (s : String) : String :=
  let b := (pyBasename s).data
  let extLen := (b.reverse.takeWhile (fun c => c != '.')).length
  if extLen = b.length then ""
  else if (b.take (b.length - extLen - 1)).any (fun c => c != '.') then
    ⟨b.drop (b.length - extLen - 1)⟩
  else ""

/-- The root component of `posixpath.splitext` applied to a basename. -/
def pyStem (s : String) : String :=
  ⟨s.data.take (s.data.length - (pyExt s).data.length)⟩

/-- `os.path.join` for one separator, as used on the relative fragments of
`move_image`: an absolute second argument wins, an empty first argument
disappears, and exactly one separator is inserted otherwise (joining with
an empty second argument leaves a trailing separator, as in Python). -/
def pyJoin (a b : String) : String :=
  if strStartsWith b "/" then b
  else if a = "" then b
  else if a.data.getLast? = some '/' then a ++ b
  else a ++ "/" ++ b

/-- Split a character list at `/` separators (inverse of `joinSlash`). -/
def splitSlash : List Char → List (List Char)
  | [] => [[]]
  | c :: rest =>
    if c = '/' then [] :: splitSlash rest
    else
      match splitSlash rest with
      | s :: ss => (c :: s) :: ss
      | [] => [[c]]

/-- Join segments with `/` separators. -/
def joinSlash : List (List Char) → List Char
  | [] => []
  | [s] => s
  | s :: ss => s ++ '/' :: joinSlash ss

/-- Resolve `.`, `..` and empty segments of a relative path, keeping
leading `..` segments that climb above the starting directory (the way
the operating system resolves a relative path against `BASE_DIR`). -/
def resolveSegs : List (List Char) → List (List Char) → List (List Char)
  | acc, [] => acc.reverse
  | acc, s :: rest =>
    if s = [] ∨ s = ['.'] then resolveSegs acc rest
    else if s = ['.', '.'] then
      match acc with
      | [] => resolveSegs [['.', '.']] rest
      | t :: acc' =>
        if t = ['.', '.'] then resolveSegs (s :: t :: acc') rest
        else resolveSegs acc' rest
    else resolveSegs (s :: acc) rest

/-- Path resolution relative to the base directory. -/
def normPath (s : String) : String :=
  ⟨joinSlash (resolveSegs [] (splitSlash s.data))⟩

/-- A well-formed path segment: nonempty, not `.` or `..`, and free of
separator characters. -/
def cleanSeg (s : List Char) : Bool :=
  !s.isEmpty && !(s == ['.']) && !(s == ['.', '.']) &&
    !(s.contains '/') && !(s.contains '\\')

/-- A well-formed relative path: every `/`-separated segment is clean.
Real files under the base directory have canonical relative paths of this
shape. -/
def cleanRel (p : String) : Bool := (splitSlash p.data).all cleanSeg

/-- The filesystem: resolved relative path ↦ file contents. -/
abbrev FS := List (String × String)

/-- `os.path.exists` / reading a file, resolving the path first. -/
def lookupFS (fs : FS) (p : String) : Option String := fs.lookup (normPath p)

/-- `os.remove`, resolving the path first. -/
def removeFS (fs : FS) (p : String) : FS :=
  fs.filter (fun e => e.1 != normPath p)

/-- Creating a file at a (resolved) path. -/
def insertFS (fs : FS) (p : String) (c : String) : FS :=
  (normPath p, c) :: fs

/-- app.py line 65 (relative to `BASE_DIR`). -/
def UNLABELED : String := "unlabeled"

/-- app.py line 66 (relative to `BASE_DIR`). -/
def VALID_VEHICLE : String := "valid/vehicle_images_with_label"

/-- app.py line 67 (relative to `BASE_DIR`). -/
def SKIPPED_VEHICLE : String := "skipped/vehicle_images"

/-- app.py line 68 (relative to `BASE_DIR`). -/
def INVALID_VEHICLE : String := "invalid/vehicle_images"

/-- The recognized-extension filter applied by both walks (app.py lines
76 and 199): `file.lower().endswith(('.png', '.jpg', '.jpeg', '.gif'))`
where `file` is the basename yielded by `os.walk`. -/
def isImageFile (p : String) : Bool :=
  let f := (pyBasename p).data.map Char.toLower
  [".png", ".jpg", ".jpeg", ".gif"].any (fun e => e.data.isSuffixOf f)

/-- `count_images_in_directory` (app.py lines 70-78): the files physically
under `directory` are the filesystem entries whose resolved path extends
it.  (The `os.path.exists` guard of the source is observationally
absorbed: walking an absent directory yields no files.) -/
def count_images_in_directory (fs : FS) (directory : String) : Nat :=
  (fs.filter (fun e =>
    strStartsWith e.1 (directory ++ "/") && isImageFile e.1)).length

/-- The JSON object returned by `/images/counts`. -/
structure ImageCounts where
  unlabeled : Nat
  valid : Nat
  invalid : Nat
  skipped : Nat
deriving DecidableEq, Repr

/-- `get_image_counts` (app.py lines 80-87). -/
def get_image_counts (fs : FS) : ImageCounts :=
  ⟨count_images_in_directory fs UNLABELED,
   count_images_in_directory fs VALID_VEHICLE,
   count_images_in_directory fs INVALID_VEHICLE,
   count_images_in_directory fs SKIPPED_VEHICLE⟩

/-- One folder of the `get_all_images` walk (app.py lines 196-202):
`os.path.relpath(os.path.join(root, file), BASE_DIR)` is the entry's key,
then `os.path.normpath` and the slash replacement are applied. -/
def walkImages (fs : FS) (directory : String) : List String :=
  (fs.filter (fun e =>
    strStartsWith e.1 (directory ++ "/") && isImageFile e.1)).map
    (fun e => toSlashes (normPath e.1))

/-- `get_all_images` (app.py lines 184-204): the four folders are walked
in the insertion order of the `folders` dict. -/
def get_all_images (fs : FS) : List String :=
  [UNLABELED, VALID_VEHICLE, INVALID_VEHICLE, SKIPPED_VEHICLE].foldl
    (fun acc d => acc ++ walkImages fs d) []

/-- app.py lines 131-152: strip the category prefix (and the category's
fixed wrapper folder, where one exists) from the normalized source path,
leaving the identity-relative path. -/
def identityRel (normalized : String) : String :=
  if strStartsWith normalized "unlabeled/" then
    strDrop normalized "unlabeled/".length
  else if strStartsWith normalized "valid/" then
    let r := strDrop normalized "valid/".length
    if strStartsWith r "vehicle_images_with_label/" then
      strDrop r "vehicle_images_with_label/".length
    else r
  else if strStartsWith normalized "invalid/" then
    let r := strDrop normalized "invalid/".length
    if strStartsWith r "vehicle_images/" then
      strDrop r "vehicle_images/".length
    else r
  else if strStartsWith normalized "skipped/" then
    let r := strDrop normalized "skipped/".length
    if strStartsWith r "vehicle_images/" then
      strDrop r "vehicle_images/".length
    else r
  else normalized

/-- app.py lines 121-129: the destination filename.  `if new_label:` is
Python truthiness, so an empty-string label takes the `else` branch and
keeps the original basename. -/
def newFilename (src_full : String) (new_label : Option String) : String :=
  match new_label with
  | some l => if l = "" then pyBasename src_full else sanitize l ++ pyExt src_full
  | none => pyBasename src_full

/-- app.py line 155: `os.path.join(dest_dir, os.path.dirname(relative_path))`. -/
def destSubdir (dest_dir normalized : String) : String :=
  pyJoin dest_dir (pyDirname (identityRel normalized))

/-- app.py line 158: the computed destination path of a move. -/
def destFull (source_path dest_dir : String) (new_label : Option String) : String :=
  pyJoin (destSubdir dest_dir (toSlashes source_path))
    (newFilename (toSlashes source_path) new_label)

/-- `move_image` (app.py lines 104-174).  The steps, in source order:
normalize separators; return `None` when the source does not exist
(line 117); compute the destination (lines 121-158); delete the
destination when occupied (lines 161-162); `shutil.move` (line 165),
whose failure is caught by the surrounding `try/except` and reported as
`None` with the mutations performed so far kept; on success return
`os.path.relpath(dst, BASE_DIR)` with forward slashes (lines 169-170). -/
def move_image (source_path dest_dir : String) (new_label : Option String)
    (fs : FS) : Option String × FS :=
  let normalized := toSlashes source_path
  if (lookupFS fs normalized).isSome then
    let dst_full := destFull source_path dest_dir new_label
    let fs1 := if (lookupFS fs dst_full).isSome then removeFS fs dst_full else fs
    match lookupFS fs1 normalized with
    | some c =>
      (some (toSlashes (normPath dst_full)), insertFS (removeFS fs1 normalized) dst_full c)
    | none => (none, fs1)
  else (none, fs)

/-- The JSON object returned by the four move endpoints. -/
structure MoveResponse where
  success : Bool
  new_path : Option String
  counts : ImageCounts
deriving DecidableEq, Repr

/-- `POST /images/label` (app.py lines 231-238). -/
def update_label (img label : String) (fs : FS) : MoveResponse × FS :=
  let r := move_image img VALID_VEHICLE (some label) fs
  (⟨true, r.1, get_image_counts r.2⟩, r.2)

/-- `POST /images/valid` (app.py lines 240-247): `request.json.get('label')
or os.path.splitext(os.path.basename(img))[0]` — a missing or empty label
falls back to the current stem. -/
def valid_image (img : String) (label : Option String) (fs : FS) :
    MoveResponse × FS :=
  let eff := match label with
    | some l => if l = "" then pyStem (pyBasename img) else l
    | none => pyStem (pyBasename img)
  let r := move_image img VALID_VEHICLE (some eff) fs
  (⟨true, r.1, get_image_counts r.2⟩, r.2)

/-- `POST /images/invalid` (app.py lines 249-255). -/
def invalid_image (img : String) (fs : FS) : MoveResponse × FS :=
  let r := move_image img INVALID_VEHICLE none fs
  (⟨true, r.1, get_image_counts r.2⟩, r.2)

/-- `POST /images/skip` (app.py lines 257-263). -/
def skip_image (img : String) (fs : FS) : MoveResponse × FS :=
  let r := move_image img SKIPPED_VEHICLE none fs
  (⟨true, r.1, get_image_counts r.2⟩, r.2)

-- ## Generic list and string lemmas

lemma strData_append (a b : String) : (a ++ b).data = a.data ++ b.data := by
  cases a; cases b; rfl

lemma strMk_data (s : String) : (⟨s.data⟩ : String) = s := by
  cases s; rfl

lemma strEq_of_data {s t : String} (h : s.data = t.data) : s = t :=
  congrArg String.mk h

lemma takeWhile_all_append (p : Char → Bool) (a b : List Char)
    (h : ∀ x ∈ a, p x = true) :
    (a ++ b).takeWhile p = a ++ b.takeWhile p := by
  induction a with
  | nil => simp
  | cons c t ih =>
    have hc := h c (by simp)
    simp [List.takeWhile_cons, hc, ih (fun x hx => h x (by simp [hx]))]

lemma dropWhile_all_append (p : Char → Bool) (a b : List Char)
    (h : ∀ x ∈ a, p x = true) :
    (a ++ b).dropWhile p = b.dropWhile p := by
  induction a with
  | nil => simp
  | cons c t ih =>
    have hc := h c (by simp)
    simp [List.dropWhile_cons, hc, ih (fun x hx => h x (by simp [hx]))]

lemma isPre_self_append (p t : List Char) : p.isPrefixOf (p ++ t) = true := by
  induction p with
  | nil => simp [ List.isPrefixOf]
  | cons c r ih => simp [ List.isPrefixOf, ih]

lemma isPre_ex {p l : List Char} (h : p.isPrefixOf l = true) :
    ∃ t, l = p ++ t := by
  induction p generalizing l with
  | nil => exact ⟨l, rfl⟩
  | cons c r ih =>
    cases l with
    | nil => simp [ List.isPrefixOf] at h
    | cons d t =>
      simp only [ List.isPrefixOf, Bool.and_eq_true, beq_iff_eq] at h
      obtain ⟨rfl, h2⟩ := h
      obtain ⟨u, rfl⟩ := ih h2
      exact ⟨u, rfl⟩

lemma isPre_of_isPre_of_le {p q l : List Char}
    (hp : p.isPrefixOf l = true) (hq : q.isPrefixOf l = true)
    (hle : p.length ≤ q.length) : p.isPrefixOf q = true := by
  induction l generalizing p q with
  | nil =>
    cases p with
    | nil => cases q <;> simp [ List.isPrefixOf]
    | cons c r => simp [ List.isPrefixOf] at hp
  | cons a t ih =>
    cases p with
    | nil => cases q <;> simp [ List.isPrefixOf]
    | cons c r =>
      cases q with
      | nil => simp at hle
      | cons d u =>
        simp only [ List.isPrefixOf, Bool.and_eq_true, beq_iff_eq] at hp hq ⊢
        obtain ⟨rfl, hp2⟩ := hp
        obtain ⟨rfl, hq2⟩ := hq
        exact ⟨rfl, ih hp2 hq2 (by simpa using hle)⟩

lemma lookup_filter_ne (fs : FS) (k r : String) (h : k ≠ r) :
    (fs.filter (fun e => e.1 != r)).lookup k = fs.lookup k := by
  induction fs with
  | nil => rfl
  | cons e t ih =>
    by_cases he : e.1 = r
    · have : (e.1 != r) = false := by simp [bne, he]
      have hk : (k == e.1) = false := by simp [he, h]
      simp [List.filter_cons, this, List.lookup, hk, ih]
    · have : (e.1 != r) = true := by simp [bne, he]
      by_cases hk : k = e.1
      · simp [List.filter_cons, this, List.lookup, hk]
      · have hk' : (k == e.1) = false := by simp [hk]
        simp [List.filter_cons, this, List.lookup, hk', ih]

lemma lookup_filter_self (fs : FS) (r : String) :
    (fs.filter (fun e => e.1 != r)).lookup r = none := by
  induction fs with
  | nil => rfl
  | cons e t ih =>
    by_cases he : e.1 = r
    · have : (e.1 != r) = false := by simp [bne, he]
      simp [List.filter_cons, this, ih]
    · have : (e.1 != r) = true := by simp [bne, he]
      have hr : (r == e.1) = false := by
        simp only [beq_eq_false_iff_ne, ne_eq]
        exact fun h => he h.symm
      simp [List.filter_cons, this, List.lookup, hr, ih]

-- ## Path splitting and normalization lemmas

lemma splitSlash_cons_slash (rest : List Char) :
    splitSlash ('/' :: rest) = [] :: splitSlash rest := by
  simp [splitSlash]

lemma splitSlash_ne_nil (l : List Char) : splitSlash l ≠ [] := by
  induction l with
  | nil => simp [splitSlash]
  | cons c rest ih =>
    by_cases hc : c = '/'
    · simp [splitSlash, hc]
    · simp only [splitSlash, hc, if_false]
      cases h : splitSlash rest with
      | nil => exact absurd h ih
      | cons s ss => simp

lemma splitSlash_cons_ne (c : Char) (rest : List Char) (hc : c ≠ '/')
    (s : List Char) (ss : List (List Char)) (h : splitSlash rest = s :: ss) :
    splitSlash (c :: rest) = (c :: s) :: ss := by
  simp [splitSlash, hc, h]

lemma joinSlash_cons (s a : List Char) (ss : List (List Char)) :
    joinSlash (s :: a :: ss) = s ++ '/' :: joinSlash (a :: ss) := rfl

lemma joinSlash_splitSlash (l : List Char) : joinSlash (splitSlash l) = l := by
  induction l with
  | nil => rfl
  | cons c rest ih =>
    cases h : splitSlash rest with
    | nil => exact absurd h (splitSlash_ne_nil rest)
    | cons s ss =>
      by_cases hc : c = '/'
      · subst hc
        rw [splitSlash_cons_slash, h, joinSlash_cons]
        rw [h] at ih
        simp [ih]
      · rw [splitSlash_cons_ne c rest hc s ss h]
        rw [h] at ih
        cases ss with
        | nil =>
          have hs : s = rest := by simpa [joinSlash] using ih
          simp [joinSlash, hs]
        | cons a ssx =>
          rw [joinSlash_cons] at ih ⊢
          simp [ih]

lemma splitSlash_append_slash (a b : List Char) :
    splitSlash (a ++ '/' :: b) = splitSlash a ++ splitSlash b := by
  induction a with
  | nil => simp [splitSlash_cons_slash, splitSlash]
  | cons c a' ih =>
    by_cases hc : c = '/'
    · subst hc
      simp only [List.cons_append, splitSlash_cons_slash, ih]
    · cases h : splitSlash a' with
      | nil => exact absurd h (splitSlash_ne_nil a')
      | cons s ss =>
        have h2 : splitSlash (a' ++ '/' :: b) = s :: (ss ++ splitSlash b) := by
          rw [ih, h]; simp
        rw [List.cons_append, splitSlash_cons_ne c _ hc _ _ h2,
          splitSlash_cons_ne c a' hc s ss h]
        simp

lemma splitSlash_no_slash (l : List Char) (h : ∀ c ∈ l, c ≠ '/') :
    splitSlash l = [l] := by
  induction l with
  | nil => rfl
  | cons c rest ih =>
    have hc : c ≠ '/' := h c (by simp)
    have hr : splitSlash rest = [rest] := ih (fun x hx => h x (by simp [hx]))
    rw [splitSlash_cons_ne c rest hc rest [] hr]

lemma mem_seg_of_mem {c : Char} {l : List Char} (h : c ∈ l) :
    c = '/' ∨ ∃ s ∈ splitSlash l, c ∈ s := by
  induction l with
  | nil => simp at h
  | cons d rest ih =>
    by_cases hd : d = '/'
    · subst hd
      rcases List.mem_cons.mp h with rfl | h2
      · exact Or.inl rfl
      · rcases ih h2 with h3 | ⟨s, hs, hcs⟩
        · exact Or.inl h3
        · exact Or.inr ⟨s, by simp [splitSlash_cons_slash, hs], hcs⟩
    · cases hsp : splitSlash rest with
      | nil => exact absurd hsp (splitSlash_ne_nil rest)
      | cons s ss =>
        rw [splitSlash_cons_ne d rest hd s ss hsp]
        rcases List.mem_cons.mp h with rfl | h2
        · exact Or.inr ⟨c :: s, by simp, by simp⟩
        · rcases ih h2 with h3 | ⟨s', hs', hcs'⟩
          · exact Or.inl h3
          · rw [hsp] at hs'
            rcases List.mem_cons.mp hs' with rfl | hss
            · exact Or.inr ⟨d :: s', by simp, by simp [hcs']⟩
            · exact Or.inr ⟨s', by simp [hss], hcs'⟩

lemma resolveSegs_clean (segs : List (List Char))
    (h : ∀ s ∈ segs, s ≠ [] ∧ s ≠ ['.'] ∧ s ≠ ['.', '.']) :
    ∀ acc, resolveSegs acc segs = acc.reverse ++ segs := by
  induction segs with
  | nil => intro acc; simp [resolveSegs]
  | cons s rest ih =>
    intro acc
    obtain ⟨h1, h2, h3⟩ := h s (by simp)
    have hor : ¬(s = [] ∨ s = ['.']) := by
      rintro (hh | hh) <;> [exact h1 hh; exact h2 hh]
    simp only [resolveSegs]
    rw [if_neg hor, if_neg h3, ih (fun x hx => h x (by simp [hx])) (s :: acc)]
    simp

lemma cleanSeg_props {s : List Char} (h : cleanSeg s = true) :
    s ≠ [] ∧ s ≠ ['.'] ∧ s ≠ ['.', '.'] ∧ '/' ∉ s ∧ '\\' ∉ s := by
  simp only [cleanSeg, Bool.and_eq_true, Bool.not_eq_true'] at h
  obtain ⟨⟨⟨⟨h1, h2⟩, h3⟩, h4⟩, h5⟩ := h
  refine ⟨List.isEmpty_eq_false.mp h1, by simpa using h2, by simpa using h3,
    ?_, ?_⟩
  · simp at h4
    exact h4
  · simp at h5
    exact h5

lemma cleanRel_segs {p : String} (h : cleanRel p = true) :
    ∀ s ∈ splitSlash p.data, cleanSeg s = true := by
  simpa [cleanRel, List.all_eq_true] using h

lemma cleanRel_normPath {p : String} (h : cleanRel p = true) :
    normPath p = p := by
  unfold normPath
  rw [resolveSegs_clean (splitSlash p.data)
    (fun s hs => by
      obtain ⟨h1, h2, h3, _, _⟩ := cleanSeg_props (cleanRel_segs h s hs)
      exact ⟨h1, h2, h3⟩) [],
    List.reverse_nil, List.nil_append, joinSlash_splitSlash]

lemma cleanRel_no_backslash {p : String} (h : cleanRel p = true) :
    '\\' ∉ p.data := by
  intro hm
  rcases mem_seg_of_mem hm with hc | ⟨s, hs, hcs⟩
  · exact absurd hc (by decide)
  · obtain ⟨_, _, _, _, h5⟩ := cleanSeg_props (cleanRel_segs h s hs)
    exact h5 hcs

lemma cleanRel_toSlashes {p : String} (h : cleanRel p = true) :
    toSlashes p = p := by
  apply strEq_of_data
  show (p.data.map fun c => if c = '\\' then '/' else c) = p.data
  have : ∀ c ∈ p.data, (if c = '\\' then '/' else c) = c := by
    intro c hc
    rw [if_neg]
    intro hcc
    exact cleanRel_no_backslash h (hcc ▸ hc)
  rw [List.map_congr_left this]
  simp

-- ## Clean paths: structural consequences

lemma cleanRel_append {a b : String} (ha : cleanRel a = true)
    (hb : cleanRel b = true) : cleanRel (a ++ "/" ++ b) = true := by
  unfold cleanRel at *
  have hd : (a ++ "/" ++ b).data = a.data ++ '/' :: b.data := by
    rw [strData_append, strData_append]
    simp
  rw [hd, splitSlash_append_slash, List.all_append]
  simp only [Bool.and_eq_true]
  exact ⟨ha, hb⟩

lemma cleanRel_single {s : String} (h : cleanSeg s.data = true) :
    cleanRel s = true := by
  unfold cleanRel
  obtain ⟨_, _, _, h4, _⟩ := cleanSeg_props h
  rw [splitSlash_no_slash s.data (fun c hc hcc => h4 (hcc ▸ hc))]
  simp [h]

lemma cleanRel_ne_empty {p : String} (h : cleanRel p = true) : p.data ≠ [] := by
  intro hp
  have h0 := cleanRel_segs h [] (by rw [hp]; simp [splitSlash])
  exact absurd h0 (by decide)

lemma cleanRel_not_slash_start {p : String} (h : cleanRel p = true) :
    strStartsWith p "/" = false := by
  cases hd : p.data with
  | nil => simp [strStartsWith, hd, List.isPrefixOf]
  | cons c t =>
    by_cases hc : c = '/'
    · exfalso
      subst hc
      have h0 := cleanRel_segs h [] (by rw [hd, splitSlash_cons_slash]; simp)
      exact absurd h0 (by decide)
    · have hb : ('/' == c) = false := beq_eq_false_iff_ne.mpr fun hcc => hc hcc.symm
      simp [strStartsWith, hd, List.isPrefixOf, hb]

lemma getLast?_decomp {l : List Char} {c : Char} (h : l.getLast? = some c) :
    ∃ l', l = l' ++ [c] := by
  induction l with
  | nil => simp at h
  | cons a t ih =>
    cases t with
    | nil =>
      simp only [List.getLast?_singleton, Option.some.injEq] at h
      exact ⟨[], by simp [h]⟩
    | cons b u =>
      rw [List.getLast?_cons_cons] at h
      obtain ⟨l', hl⟩ := ih h
      exact ⟨a :: l', by simp [hl]⟩

lemma cleanRel_last_ne_slash {p : String} (h : cleanRel p = true) :
    p.data.getLast? ≠ some '/' := by
  intro hl
  obtain ⟨l', hl'⟩ := getLast?_decomp hl
  have hsp : splitSlash p.data = splitSlash l' ++ [[]] := by
    rw [hl']
    have he : l' ++ ['/'] = l' ++ '/' :: ([] : List Char) := rfl
    rw [he, splitSlash_append_slash]
    rfl
  have h0 := cleanRel_segs h [] (by rw [hsp]; simp)
  exact absurd h0 (by decide)

lemma cleanRel_rev_head {p : String} (h : cleanRel p = true) :
    ∃ c t, p.data.reverse = c :: t ∧ c ≠ '/' := by
  cases hr : p.data.reverse with
  | nil =>
    exfalso
    exact cleanRel_ne_empty h (by simpa using congrArg List.reverse hr)
  | cons c t =>
    refine ⟨c, t, rfl, fun hc => ?_⟩
    apply cleanRel_last_ne_slash h
    rw [List.getLast?_eq_head?_reverse, hr, hc]
    rfl

-- ## String prefix and slicing lemmas

lemma startsWith_self_append (p r : String) :
    strStartsWith (p ++ r) p = true := by
  unfold strStartsWith
  rw [strData_append]
  exact isPre_self_append _ _

lemma startsWith_ex {s p : String} (h : strStartsWith s p = true) :
    ∃ t, s.data = p.data ++ t := isPre_ex h

lemma strDrop_of_data (s : String) (a t : List Char) (h : s.data = a ++ t)
    (n : Nat) (hn : n = a.length) : strDrop s n = ⟨t⟩ := by
  unfold strDrop
  rw [h, hn]
  congr 1
  exact List.drop_left a t

lemma data_slash_append (a b : String) :
    (a ++ "/" ++ b).data = a.data ++ '/' :: b.data := by
  rw [strData_append, strData_append]
  simp

lemma strNe_of_head {s t : String} {a b : Char} {u v : List Char}
    (hs : s.data = a :: u) (ht : t.data = b :: v) (hab : a ≠ b) : s ≠ t := by
  intro h
  rw [h, ht] at hs
  exact hab (List.head_eq_of_cons_eq hs.symm)

lemma strNe_empty_of_data {s : String} (h : s.data ≠ []) : s ≠ "" :=
  fun he => h (by rw [he])

lemma getLast?_slash_append (x y : String) (hy : y.data ≠ []) :
    (x ++ "/" ++ y).data.getLast? = y.data.getLast? := by
  rw [data_slash_append]
  rw [List.getLast?_append_of_ne_nil x.data (by simp)]
  cases hys : y.data with
  | nil => exact absurd hys hy
  | cons a t => rw [List.getLast?_cons_cons]

-- ## Basename, dirname, join, extension lemmas

lemma pyBasename_no_slash (n : List Char) (h : ∀ c ∈ n, c ≠ '/') :
    pyBasename ⟨n⟩ = ⟨n⟩ := by
  unfold pyBasename
  congr 1
  have hall : ∀ x ∈ n.reverse, (x != '/') = true := fun x hx => by
    simp only [bne_iff_ne, ne_eq]
    exact h x (List.mem_reverse.mp hx)
  have ht : n.reverse.takeWhile (fun c => c != '/') = n.reverse := by
    simpa using takeWhile_all_append (fun c => c != '/') n.reverse [] hall
  rw [ht, List.reverse_reverse]

lemma pyBasename_append (d n : List Char) (h : ∀ c ∈ n, c ≠ '/') :
    pyBasename ⟨d ++ '/' :: n⟩ = ⟨n⟩ := by
  unfold pyBasename
  congr 1
  have hall : ∀ x ∈ n.reverse, (x != '/') = true := fun x hx => by
    simp only [bne_iff_ne, ne_eq]
    exact h x (List.mem_reverse.mp hx)
  have hr : (d ++ '/' :: n).reverse = n.reverse ++ '/' :: d.reverse := by
    simp
  rw [hr, takeWhile_all_append _ n.reverse _ hall]
  simp [List.takeWhile_cons]

lemma pyDirname_no_slash (n : List Char) (h : ∀ c ∈ n, c ≠ '/') :
    pyDirname ⟨n⟩ = "" := by
  have hall : ∀ x ∈ n.reverse, (x != '/') = true := fun x hx => by
    simp only [bne_iff_ne, ne_eq]
    exact h x (List.mem_reverse.mp hx)
  have hd : n.reverse.dropWhile (fun c => c != '/') = [] := by
    simpa using dropWhile_all_append (fun c => c != '/') n.reverse [] hall
  simp only [pyDirname, hd]
  rfl

lemma pyDirname_append (sub : String) (n : List Char)
    (hn : ∀ c ∈ n, c ≠ '/') (hsub : cleanRel sub = true) :
    pyDirname ⟨sub.data ++ '/' :: n⟩ = sub := by
  have hall : ∀ x ∈ n.reverse, (x != '/') = true := fun x hx => by
    simp only [bne_iff_ne, ne_eq]
    exact hn x (List.mem_reverse.mp hx)
  obtain ⟨c, t, hct, hc⟩ := cleanRel_rev_head hsub
  have hr : (sub.data ++ '/' :: n).reverse = n.reverse ++ '/' :: sub.data.reverse := by
    simp
  have hdw : (sub.data ++ '/' :: n).reverse.dropWhile (fun c => c != '/') =
      '/' :: sub.data.reverse := by
    rw [hr, dropWhile_all_append _ n.reverse _ hall]
    simp [List.dropWhile_cons]
  have hstr : ('/' :: sub.data.reverse).dropWhile (fun c => c == '/') =
      sub.data.reverse := by
    rw [List.dropWhile_cons]
    simp only [beq_self_eq_true, if_true]
    rw [hct, List.dropWhile_cons]
    have : (c == '/') = false := beq_eq_false_iff_ne.mpr hc
    simp [this, ← hct]
  simp only [pyDirname, hdw, hstr]
  rw [if_neg]
  · rw [List.reverse_reverse]
  · rw [hct]
    simp

lemma pyJoin_eq (a b : String) (hb1 : strStartsWith b "/" = false)
    (ha1 : a ≠ "") (ha2 : a.data.getLast? ≠ some '/') :
    pyJoin a b = a ++ "/" ++ b := by
  unfold pyJoin
  rw [if_neg (by simp [hb1]), if_neg ha1, if_neg ha2]

lemma no_slash_pyBasename (s : String) : ∀ c ∈ (pyBasename s).data, c ≠ '/' := by
  intro c hc hcc
  subst hcc
  unfold pyBasename at hc
  have := List.mem_takeWhile_imp (List.mem_reverse.mp hc)
  simp at this

lemma no_slash_pyExt (s : String) : ∀ c ∈ (pyExt s).data, c ≠ '/' := by
  intro c hc
  simp only [pyExt] at hc
  split at hc
  · simp at hc
  · split at hc
    · exact no_slash_pyBasename s c (List.mem_of_mem_drop hc)
    · simp at hc

-- ## Sanitizer lemmas

lemma sanitize_mem {c : Char} {x : String} (hc : c ∈ (sanitize x).data) :
    c ≠ '/' ∧ c ≠ '\\' := by
  simp only [sanitize, replaceChar, List.map_map] at hc
  obtain ⟨a, _, rfl⟩ := List.mem_map.mp hc
  simp only [Function.comp]
  by_cases h1 : a = '/'
  · subst h1
    decide
  · by_cases h2 : a = '\\'
    · subst h2
      decide
    · simp [h1, h2]

lemma sanitize_length (x : String) :
    (sanitize x).data.length = x.data.length := by
  simp [sanitize, replaceChar]

lemma sanitize_ne_empty {x : String} (h : x ≠ "") : sanitize x ≠ "" := by
  intro hs
  apply h
  apply strEq_of_data
  have h0 : x.data.length = 0 := by
    rw [← sanitize_length x, hs]
    rfl
  simpa using List.eq_nil_of_length_eq_zero h0

-- ## Claim theorems

/-- C7: the filename sanitizer applied by `move_image` (replacing `/` and
`\` by `_`) is idempotent: `sanitize (sanitize x) = sanitize x` for every
string `x`. -/
theorem C7_sanitize_idempotent (x : String) :
    sanitize (sanitize x) = sanitize x := by
  apply strEq_of_data
  simp only [sanitize, replaceChar, List.map_map]
  apply List.map_congr_left
  intro a _
  simp only [Function.comp]
  by_cases h1 : a = '/'
  · subst h1
    decide
  · by_cases h2 : a = '\\'
    · subst h2
      decide
    · simp [h1, h2]

/-- C8 counterexample: with the empty-string label (the only label whose
sanitized result is empty), the destination filename is the original
basename `b.jpg`, not the bare extension `.jpg` demanded by the claim,
because `if new_label:` treats the empty string as falsy. -/
theorem C8_empty_label_keeps_basename :
    newFilename "unlabeled/a/b.jpg" (some "") = "b.jpg" ∧
    sanitize "" ++ pyExt "unlabeled/a/b.jpg" = ".jpg" ∧
    ("b.jpg" : String) ≠ ".jpg" := by decide

/-- C8 as amended: for every move in which a non-empty label is provided,
the destination filename is the sanitized label concatenated with the
original extension (the original base filename is discarded); an
empty-string label is falsy and keeps the original base filename, so the
just-extension filename never arises. -/
theorem C8_label_replaces_filename (s l : String) (h : l ≠ "") :
    newFilename s (some l) = sanitize l ++ pyExt s ∧
    newFilename s (some "") = pyBasename s := by
  constructor
  · simp [newFilename, h]
  · simp [newFilename]

/-- Witness for C8_label_replaces_filename at a concrete input. -/
theorem C8_label_replaces_filename_witness :
    ("ABC" : String) ≠ "" ∧
    (newFilename "unlabeled/a/b.jpg" (some "ABC") =
        sanitize "ABC" ++ pyExt "unlabeled/a/b.jpg" ∧
      newFilename "unlabeled/a/b.jpg" (some "") =
        pyBasename "unlabeled/a/b.jpg") :=
  ⟨by decide, C8_label_replaces_filename "unlabeled/a/b.jpg" "ABC" (by decide)⟩

/-- C1: evaluation of the code at the failing input.  Re-marking an
already-invalid image as invalid makes the computed destination equal the
source; `move_image` then deletes the destination (line 162), which is the
source itself, `shutil.move` raises, and the caught exception yields
`None` — but the file is gone from both locations, contradicting the
all-or-nothing claim that a failure leaves the source untouched. -/
theorem C1_selfmove_destroys_file :
    lookupFS [("invalid/vehicle_images/a.jpg", "imgdata")]
      "invalid/vehicle_images/a.jpg" = some "imgdata" ∧
    move_image "invalid/vehicle_images/a.jpg" INVALID_VEHICLE none
      [("invalid/vehicle_images/a.jpg", "imgdata")] = (none, []) := by decide

/-- C4: evaluation of the code at the failing input.  The source path
`unlabeled/../../secret.jpg` resolves outside the base directory (to
`../secret.jpg`), yet `move_image` performs no traversal check: it does
not fail with any `InvalidPath` error and it relocates the outside file
into the tree, touching the filesystem. -/
theorem C4_traversal_not_rejected :
    strStartsWith (normPath (toSlashes "unlabeled/../../secret.jpg")) "../"
      = true ∧
    move_image "unlabeled/../../secret.jpg" SKIPPED_VEHICLE none
      [("../secret.jpg", "s")] =
      (some "secret.jpg", [("secret.jpg", "s")]) := by decide

/-- C2 counterexample: posting a label for the nonexistent source
`unlabeled/x.jpg` returns a response whose `success` field is `true`, not
the `{success: false, error}` failure shape the claim demands; the failed
move is signaled only by the null `new_path`. -/
theorem C2_success_true_on_missing_source :
    lookupFS [] (toSlashes "unlabeled/x.jpg") = none ∧
    (update_label "unlabeled/x.jpg" "PLATE" []).1.success = true ∧
    (update_label "unlabeled/x.jpg" "PLATE" []).1.new_path = none := by decide

/-- C2 as amended: for every request to a move endpoint whose resolved
source path does not exist, no file is altered (the filesystem state is
returned unchanged, so `listAll()` is unchanged too), and the response is
`{success: true, new_path: null, counts}` — failure is signaled only by
the null `new_path`, never by `success: false` or an error field. -/
theorem C2_missing_source_no_change (fs : FS) (img label : String)
    (lopt : Option String) (h : lookupFS fs (toSlashes img) = none) :
    (update_label img label fs).1 = ⟨true, none, get_image_counts fs⟩ ∧
    (update_label img label fs).2 = fs ∧
    (valid_image img lopt fs).1 = ⟨true, none, get_image_counts fs⟩ ∧
    (valid_image img lopt fs).2 = fs ∧
    (invalid_image img fs).1 = ⟨true, none, get_image_counts fs⟩ ∧
    (invalid_image img fs).2 = fs ∧
    (skip_image img fs).1 = ⟨true, none, get_image_counts fs⟩ ∧
    (skip_image img fs).2 = fs ∧
    get_all_images (update_label img label fs).2 = get_all_images fs := by
  have hm : ∀ (d : String) (l : Option String),
      move_image img d l fs = (none, fs) := by
    intro d l
    simp only [move_image, h]
    rfl
  refine ⟨?_, ?_, ?_, ?_, ?_, ?_, ?_, ?_, ?_⟩ <;>
    simp [update_label, valid_image, invalid_image, skip_image, hm]

/-- Witness for C2_missing_source_no_change at a concrete input. -/
theorem C2_missing_source_no_change_witness :
    lookupFS [("valid/vehicle_images_with_label/z.png", "zz")]
      (toSlashes "unlabeled/x.jpg") = none ∧
    (update_label "unlabeled/x.jpg" "PLATE"
        [("valid/vehicle_images_with_label/z.png", "zz")]).1 =
      ⟨true, none,
        get_image_counts [("valid/vehicle_images_with_label/z.png", "zz")]⟩ ∧
    (skip_image "unlabeled/x.jpg"
        [("valid/vehicle_images_with_label/z.png", "zz")]).2 =
      [("valid/vehicle_images_with_label/z.png", "zz")] :=
  ⟨by decide,
    (C2_missing_source_no_change [("valid/vehicle_images_with_label/z.png", "zz")]
      "unlabeled/x.jpg" "PLATE" none (by decide)).1,
    (C2_missing_source_no_change [("valid/vehicle_images_with_label/z.png", "zz")]
      "unlabeled/x.jpg" "PLATE" none (by decide)).2.2.2.2.2.2.2.1⟩

/-- C5 counterexample: a filesystem holding one valid and one invalid
image.  `get_all_images` returns the valid entry before the invalid one
(the dict order of the walk), while lexicographic order would put
`invalid/...` first — the listing is not sorted by path reference. -/
theorem C5_listing_not_sorted :
    get_all_images
      [("valid/vehicle_images_with_label/a.jpg", "x"),
       ("invalid/vehicle_images/b.jpg", "y")] =
      ["valid/vehicle_images_with_label/a.jpg",
       "invalid/vehicle_images/b.jpg"] ∧
    ¬ List.Sorted (fun a b : String => a ≤ b)
      (get_all_images
        [("valid/vehicle_images_with_label/a.jpg", "x"),
         ("invalid/vehicle_images/b.jpg", "y")]) := by
  have h1 : get_all_images
      [("valid/vehicle_images_with_label/a.jpg", "x"),
       ("invalid/vehicle_images/b.jpg", "y")] =
      ["valid/vehicle_images_with_label/a.jpg",
       "invalid/vehicle_images/b.jpg"] := by decide
  refine ⟨h1, ?_⟩
  intro hs
  rw [h1] at hs
  have hle := (List.sorted_cons.mp hs).1 "invalid/vehicle_images/b.jpg"
    (by simp)
  have hlt : ("invalid/vehicle_images/b.jpg" : String) <
      "valid/vehicle_images_with_label/a.jpg" := by
    rw [String.lt_iff_toList_lt]
    decide
  exact absurd hle (not_le.mpr hlt)

/-- C5 as amended: `get_all_images` is a deterministic pure function of
the filesystem state whose result is the concatenation of the four
category walks in the fixed order unlabeled, valid, invalid, skipped
(each walk in traversal order); it is not sorted lexicographically across
categories. -/
theorem C5_listing_walk_order (fs : FS) :
    get_all_images fs =
      walkImages fs UNLABELED ++ walkImages fs VALID_VEHICLE ++
      walkImages fs INVALID_VEHICLE ++ walkImages fs SKIPPED_VEHICLE := by
  simp [get_all_images]

/-- C6 counterexample: when the occupied destination coincides with the
source (re-skipping an already-skipped image), the claim's universal
statement fails: after the move zero files exist at the destination —
`move_image` deletes the occupant (the source itself) and the move then
fails, so the destination does not hold the moved source's content. -/
theorem C6_self_collision_no_file_left :
    destFull "skipped/vehicle_images/b.png" SKIPPED_VEHICLE none =
      "skipped/vehicle_images/b.png" ∧
    lookupFS [("skipped/vehicle_images/b.png", "old")]
      (destFull "skipped/vehicle_images/b.png" SKIPPED_VEHICLE none) =
      some "old" ∧
    lookupFS (move_image "skipped/vehicle_images/b.png" SKIPPED_VEHICLE none
        [("skipped/vehicle_images/b.png", "old")]).2
      (destFull "skipped/vehicle_images/b.png" SKIPPED_VEHICLE none) =
      none := by decide

/-- C6 as amended: for every move whose computed destination path differs
from the resolved source path and already holds a file, the occupant is
deleted and the move proceeds (last write wins): afterwards the
destination holds exactly the moved source's content (the previous
occupant's content is gone), the source is gone, and every other path is
untouched (in particular no suffixed duplicate is created). -/
theorem C6_collision_overwrites (p d : String) (l : Option String) (fs : FS)
    (c cOld : String)
    (hsrc : lookupFS fs (toSlashes p) = some c)
    (hdst : lookupFS fs (destFull p d l) = some cOld)
    (hne : normPath (destFull p d l) ≠ normPath (toSlashes p)) :
    (move_image p d l fs).1 = some (toSlashes (normPath (destFull p d l))) ∧
    lookupFS (move_image p d l fs).2 (destFull p d l) = some c ∧
    lookupFS (move_image p d l fs).2 (toSlashes p) = none ∧
    ∀ q : String, normPath q ≠ normPath (destFull p d l) →
      normPath q ≠ normPath (toSlashes p) →
      lookupFS (move_image p d l fs).2 q = lookupFS fs q := by
  have hl : lookupFS (removeFS fs (destFull p d l)) (toSlashes p) = some c := by
    unfold lookupFS removeFS
    rw [lookup_filter_ne fs (normPath (toSlashes p))
      (normPath (destFull p d l)) (Ne.symm hne)]
    exact hsrc
  have hstep : move_image p d l fs =
      (some (toSlashes (normPath (destFull p d l))),
        insertFS (removeFS (removeFS fs (destFull p d l)) (toSlashes p))
          (destFull p d l) c) := by
    simp only [move_image, hsrc, hdst, Option.isSome_some, if_true, hl]
  rw [hstep]
  refine ⟨rfl, ?_, ?_, ?_⟩
  · unfold insertFS lookupFS
    simp [List.lookup]
  · unfold insertFS lookupFS removeFS
    have hb : (normPath (toSlashes p) == normPath (destFull p d l)) = false :=
      beq_eq_false_iff_ne.mpr (Ne.symm hne)
    simp only [List.lookup, hb]
    exact lookup_filter_self _ _
  · intro q hq1 hq2
    unfold insertFS lookupFS removeFS
    have hb : (normPath q == normPath (destFull p d l)) = false :=
      beq_eq_false_iff_ne.mpr hq1
    simp only [List.lookup, hb]
    rw [lookup_filter_ne _ _ _ hq2, lookup_filter_ne _ _ _ hq1]

/-- Witness for C6_collision_overwrites at a concrete input. -/
theorem C6_collision_overwrites_witness :
    lookupFS [("unlabeled/a/1.jpg", "new"), ("invalid/vehicle_images/a/1.jpg", "old")]
      (toSlashes "unlabeled/a/1.jpg") = some "new" ∧
    (move_image "unlabeled/a/1.jpg" INVALID_VEHICLE none
        [("unlabeled/a/1.jpg", "new"),
         ("invalid/vehicle_images/a/1.jpg", "old")]).1 =
      some (toSlashes (normPath
        (destFull "unlabeled/a/1.jpg" INVALID_VEHICLE none))) ∧
    lookupFS (move_image "unlabeled/a/1.jpg" INVALID_VEHICLE none
        [("unlabeled/a/1.jpg", "new"),
         ("invalid/vehicle_images/a/1.jpg", "old")]).2
      (destFull "unlabeled/a/1.jpg" INVALID_VEHICLE none) = some "new" ∧
    lookupFS (move_image "unlabeled/a/1.jpg" INVALID_VEHICLE none
        [("unlabeled/a/1.jpg", "new"),
         ("invalid/vehicle_images/a/1.jpg", "old")]).2
      (toSlashes "unlabeled/a/1.jpg") = none ∧
    lookupFS (move_image "unlabeled/a/1.jpg" INVALID_VEHICLE none
        [("unlabeled/a/1.jpg", "new"),
         ("invalid/vehicle_images/a/1.jpg", "old")]).2
      "skipped/vehicle_images/zz.gif" =
      lookupFS [("unlabeled/a/1.jpg", "new"),
        ("invalid/vehicle_images/a/1.jpg", "old")] "skipped/vehicle_images/zz.gif" :=
  ⟨by decide,
    (C6_collision_overwrites "unlabeled/a/1.jpg" INVALID_VEHICLE none
      [("unlabeled/a/1.jpg", "new"), ("invalid/vehicle_images/a/1.jpg", "old")]
      "new" "old" (by decide) (by decide) (by decide)).1,
    (C6_collision_overwrites "unlabeled/a/1.jpg" INVALID_VEHICLE none
      [("unlabeled/a/1.jpg", "new"), ("invalid/vehicle_images/a/1.jpg", "old")]
      "new" "old" (by decide) (by decide) (by decide)).2.1,
    (C6_collision_overwrites "unlabeled/a/1.jpg" INVALID_VEHICLE none
      [("unlabeled/a/1.jpg", "new"), ("invalid/vehicle_images/a/1.jpg", "old")]
      "new" "old" (by decide) (by decide) (by decide)).2.2.1,
    (C6_collision_overwrites "unlabeled/a/1.jpg" INVALID_VEHICLE none
      [("unlabeled/a/1.jpg", "new"), ("invalid/vehicle_images/a/1.jpg", "old")]
      "new" "old" (by decide) (by decide) (by decide)).2.2.2
      "skipped/vehicle_images/zz.gif" (by decide) (by decide)⟩

-- ## Join structure lemmas (for C10 and C3)

lemma no_slash_start (b : String) (hb : ∀ c ∈ b.data, c ≠ '/') :
    strStartsWith b "/" = false := by
  cases hd : b.data with
  | nil => simp [strStartsWith, hd, List.isPrefixOf]
  | cons c t =>
    have hc : c ≠ '/' := hb c (by rw [hd]; simp)
    have hbq : ('/' == c) = false := beq_eq_false_iff_ne.mpr fun hcc => hc hcc.symm
    simp [strStartsWith, hd, List.isPrefixOf, hbq]

lemma pyBasename_pyJoin (a b : String) (hb : ∀ c ∈ b.data, c ≠ '/') :
    pyBasename (pyJoin a b) = b := by
  unfold pyJoin
  rw [if_neg (by simp [no_slash_start b hb])]
  by_cases ha : a = ""
  · rw [if_pos ha]
    exact pyBasename_no_slash b.data hb
  · rw [if_neg ha]
    by_cases hl : a.data.getLast? = some '/'
    · rw [if_pos hl]
      obtain ⟨l', hl'⟩ := getLast?_decomp hl
      have heq : a ++ b = (⟨l' ++ '/' :: b.data⟩ : String) := by
        apply strEq_of_data
        show a.data ++ b.data = l' ++ '/' :: b.data
        rw [hl']
        simp
      rw [heq]
      exact pyBasename_append l' b.data hb
    · rw [if_neg hl]
      have heq : a ++ "/" ++ b = (⟨a.data ++ '/' :: b.data⟩ : String) := by
        apply strEq_of_data
        show (a ++ "/" ++ b).data = _
        rw [strData_append, strData_append]
        simp
      rw [heq]
      exact pyBasename_append a.data b.data hb

lemma pyDirname_data_eq (x y : String)
    (h : x.data.reverse.dropWhile (fun c => c != '/') =
      y.data.reverse.dropWhile (fun c => c != '/')) :
    pyDirname x = pyDirname y := by
  simp only [pyDirname, h]

lemma dropRev_pyJoin (a b : String) (hb : ∀ c ∈ b.data, c ≠ '/') :
    (pyJoin a b).data.reverse.dropWhile (fun c => c != '/') =
      (if a = "" then []
       else if a.data.getLast? = some '/' then a.data.reverse
       else '/' :: a.data.reverse) := by
  have hball : ∀ x ∈ b.data.reverse, (x != '/') = true := fun x hx => by
    simp only [bne_iff_ne, ne_eq]
    exact hb x (List.mem_reverse.mp hx)
  unfold pyJoin
  rw [if_neg (by simp [no_slash_start b hb])]
  by_cases ha : a = ""
  · rw [if_pos ha, if_pos ha]
    simpa using dropWhile_all_append (fun c => c != '/') b.data.reverse [] hball
  · rw [if_neg ha, if_neg ha]
    by_cases hl : a.data.getLast? = some '/'
    · rw [if_pos hl, if_pos hl, strData_append, List.reverse_append,
        dropWhile_all_append _ _ _ hball]
      obtain ⟨l', hl'⟩ := getLast?_decomp hl
      rw [hl']
      simp [List.dropWhile_cons]
    · rw [if_neg hl, if_neg hl]
      have hd : (a ++ "/" ++ b).data = a.data ++ '/' :: b.data := by
        rw [strData_append, strData_append]
        simp
      have hrev : (a.data ++ '/' :: b.data).reverse =
          b.data.reverse ++ '/' :: a.data.reverse := by
        simp
      rw [hd, hrev, dropWhile_all_append _ _ _ hball]
      simp [List.dropWhile_cons]

/-- C10: with a provided non-empty label, the sanitized label contains no
path separators, so the destination path is the destination subdirectory
joined with the new filename: its basename is exactly the sanitized label
plus the original extension, and its directory part does not depend on the
label at all — a label can neither add directory levels nor escape the
destination directory. -/
theorem C10_label_stays_in_destdir (p d l1 l2 : String)
    (h1 : l1 ≠ "") (h2 : l2 ≠ "") :
    (∀ c ∈ (sanitize l1).data, c ≠ '/' ∧ c ≠ '\\') ∧
    destFull p d (some l1) =
      pyJoin (destSubdir d (toSlashes p))
        (sanitize l1 ++ pyExt (toSlashes p)) ∧
    pyBasename (destFull p d (some l1)) =
      sanitize l1 ++ pyExt (toSlashes p) ∧
    pyDirname (destFull p d (some l1)) = pyDirname (destFull p d (some l2)) := by
  have hdf : ∀ l : String, l ≠ "" → destFull p d (some l) =
      pyJoin (destSubdir d (toSlashes p))
        (sanitize l ++ pyExt (toSlashes p)) := by
    intro l hl
    rw [destFull]
    simp [newFilename, hl]
  have hnoslash : ∀ l : String,
      ∀ c ∈ (sanitize l ++ pyExt (toSlashes p)).data, c ≠ '/' := by
    intro l c hc
    rw [strData_append] at hc
    rcases List.mem_append.mp hc with h | h
    · exact (sanitize_mem h).1
    · exact no_slash_pyExt _ c h
  refine ⟨fun c hc => sanitize_mem hc, hdf l1 h1, ?_, ?_⟩
  · rw [hdf l1 h1]
    exact pyBasename_pyJoin _ _ (hnoslash l1)
  · rw [hdf l1 h1, hdf l2 h2]
    apply pyDirname_data_eq
    rw [dropRev_pyJoin _ _ (hnoslash l1), dropRev_pyJoin _ _ (hnoslash l2)]

/-- Witness for C10_label_stays_in_destdir at a concrete input. -/
theorem C10_label_stays_in_destdir_witness :
    ("AB/CD" : String) ≠ "" ∧ ("Z" : String) ≠ "" ∧
    pyBasename (destFull "unlabeled/a/b.jpg" VALID_VEHICLE (some "AB/CD")) =
      sanitize "AB/CD" ++ pyExt (toSlashes "unlabeled/a/b.jpg") ∧
    pyDirname (destFull "unlabeled/a/b.jpg" VALID_VEHICLE (some "AB/CD")) =
      pyDirname (destFull "unlabeled/a/b.jpg" VALID_VEHICLE (some "Z")) :=
  ⟨by decide, by decide,
    (C10_label_stays_in_destdir "unlabeled/a/b.jpg" VALID_VEHICLE "AB/CD" "Z"
      (by decide) (by decide)).2.2.1,
    (C10_label_stays_in_destdir "unlabeled/a/b.jpg" VALID_VEHICLE "AB/CD" "Z"
      (by decide) (by decide)).2.2.2⟩

/-- C3 counterexample: moving `unlabeled/Goa/Ambre_Colony/12.jpg` to the
invalid category yields the path reference
`invalid/vehicle_images/Goa/Ambre_Colony/12.jpg` — the invalid root
carries the fixed `vehicle_images` wrapper folder — not the
`invalid/Goa/Ambre_Colony/12.jpg` stated by the claim. -/
theorem C3_invalid_root_has_wrapper :
    (move_image "unlabeled/Goa/Ambre_Colony/12.jpg" INVALID_VEHICLE none
      [("unlabeled/Goa/Ambre_Colony/12.jpg", "d")]).1 =
      some "invalid/vehicle_images/Goa/Ambre_Colony/12.jpg" ∧
    some ("invalid/vehicle_images/Goa/Ambre_Colony/12.jpg" : String) ≠
      some ("invalid/" ++ "Goa/Ambre_Colony" ++ "/" ++ "12.jpg") := by decide

/-- C3 as amended: for every image at `unlabeled/<sub>/<name>`, moving it
to the invalid category with no label yields the path reference
`invalid/vehicle_images/<sub>/<name>`: beneath the invalid category root
(which includes the fixed `vehicle_images` wrapper) the subdirectory
structure is preserved — never flattened and never re-nested inside an
extra `unlabeled` segment. -/
theorem C3_subdir_preserved (sub name : String) (fs : FS) (c : String)
    (hsub : cleanRel sub = true) (hname : cleanSeg name.data = true)
    (hsrc : lookupFS fs ("unlabeled/" ++ sub ++ "/" ++ name) = some c) :
    (move_image ("unlabeled/" ++ sub ++ "/" ++ name) INVALID_VEHICLE none
      fs).1 = some ("invalid/vehicle_images/" ++ sub ++ "/" ++ name) := by
  have hnameRel : cleanRel name = true := cleanRel_single hname
  have hnNoSlash : ∀ x ∈ name.data, x ≠ '/' := by
    intro x hx hxx
    exact (cleanSeg_props hname).2.2.2.1 (hxx ▸ hx)
  have hu : ("unlabeled" ++ "/" : String) = "unlabeled/" := by decide
  have hcleanA : cleanRel ("unlabeled/" ++ sub) = true := by
    rw [← hu]
    exact cleanRel_append (by decide) hsub
  have hcleanSrc : cleanRel ("unlabeled/" ++ sub ++ "/" ++ name) = true :=
    cleanRel_append hcleanA hnameRel
  have hts : toSlashes ("unlabeled/" ++ sub ++ "/" ++ name) =
      "unlabeled/" ++ sub ++ "/" ++ name := cleanRel_toSlashes hcleanSrc
  have hdata : ("unlabeled/" ++ sub ++ "/" ++ name).data =
      "unlabeled/".data ++ (sub.data ++ '/' :: name.data) := by
    rw [data_slash_append, strData_append]
    simp
  -- the destination path
  have hbn : pyBasename ("unlabeled/" ++ sub ++ "/" ++ name) = name := by
    have heq : "unlabeled/" ++ sub ++ "/" ++ name =
        (⟨("unlabeled/" ++ sub).data ++ '/' :: name.data⟩ : String) :=
      strEq_of_data (data_slash_append ("unlabeled/" ++ sub) name)
    rw [heq]
    exact pyBasename_append _ name.data hnNoSlash
  have hsw : strStartsWith ("unlabeled/" ++ sub ++ "/" ++ name)
      "unlabeled/" = true := by
    unfold strStartsWith
    rw [hdata]
    exact isPre_self_append _ _
  have hrel : identityRel ("unlabeled/" ++ sub ++ "/" ++ name) =
      sub ++ "/" ++ name := by
    simp only [identityRel, hsw, if_true]
    rw [strDrop_of_data _ _ _ hdata _ (by decide)]
    exact (strEq_of_data (data_slash_append sub name)).symm
  have hpd : pyDirname (identityRel ("unlabeled/" ++ sub ++ "/" ++ name)) =
      sub := by
    rw [hrel, strEq_of_data (data_slash_append sub name)]
    exact pyDirname_append sub name.data hnNoSlash hsub
  have hD2 : destSubdir INVALID_VEHICLE ("unlabeled/" ++ sub ++ "/" ++ name) =
      INVALID_VEHICLE ++ "/" ++ sub := by
    unfold destSubdir
    rw [hpd]
    exact pyJoin_eq INVALID_VEHICLE sub (cleanRel_not_slash_start hsub)
      (by decide) (by decide)
  have hDne : (INVALID_VEHICLE ++ "/" ++ sub).data ≠ [] := by
    rw [data_slash_append]
    simp
  have hDlast : (INVALID_VEHICLE ++ "/" ++ sub).data.getLast? ≠ some '/' := by
    rw [getLast?_slash_append INVALID_VEHICLE sub (cleanRel_ne_empty hsub)]
    exact cleanRel_last_ne_slash hsub
  have hiv : (INVALID_VEHICLE ++ "/" : String) = "invalid/vehicle_images/" := by
    decide
  have hdst : destFull ("unlabeled/" ++ sub ++ "/" ++ name)
      INVALID_VEHICLE none = "invalid/vehicle_images/" ++ sub ++ "/" ++ name := by
    unfold destFull
    rw [hts, hD2]
    simp only [newFilename]
    rw [hbn,
      pyJoin_eq (INVALID_VEHICLE ++ "/" ++ sub) name
        (cleanRel_not_slash_start hnameRel) (strNe_empty_of_data hDne) hDlast,
      ← hiv]
  have hcleanDst : cleanRel ("invalid/vehicle_images/" ++ sub ++ "/" ++ name)
      = true := by
    rw [← hiv]
    exact cleanRel_append (cleanRel_append (by decide) hsub) hnameRel
  -- source and destination are different resolved paths
  have hneq : normPath ("unlabeled/" ++ sub ++ "/" ++ name) ≠
      normPath ("invalid/vehicle_images/" ++ sub ++ "/" ++ name) := by
    rw [cleanRel_normPath hcleanSrc, cleanRel_normPath hcleanDst]
    have hdata2 : ("invalid/vehicle_images/" ++ sub ++ "/" ++ name).data =
        "invalid/vehicle_images/".data ++ (sub.data ++ '/' :: name.data) := by
      rw [data_slash_append, strData_append]
      simp
    have hs1 : ("unlabeled/" ++ sub ++ "/" ++ name).data =
        'u' :: ("nlabeled/".data ++ (sub.data ++ '/' :: name.data)) := by
      rw [hdata, show "unlabeled/".data = 'u' :: "nlabeled/".data from by decide]
      simp
    have hs2 : ("invalid/vehicle_images/" ++ sub ++ "/" ++ name).data =
        'i' :: ("nvalid/vehicle_images/".data ++
          (sub.data ++ '/' :: name.data)) := by
      rw [hdata2,
        show "invalid/vehicle_images/".data = 'i' :: "nvalid/vehicle_images/".data
          from by decide]
      simp
    exact strNe_of_head hs1 hs2 (by decide)
  -- evaluate move_image
  simp only [move_image, hts, hsrc, Option.isSome_some, if_true, hdst,
    cleanRel_normPath hcleanDst, cleanRel_toSlashes hcleanDst]
  cases hocc : lookupFS fs ("invalid/vehicle_images/" ++ sub ++ "/" ++ name) with
  | none =>
    simp only [hocc, Option.isSome_none, Bool.false_eq_true, if_false, hsrc]
  | some v =>
    simp only [hocc, Option.isSome_some, if_true]
    have hl : lookupFS
        (removeFS fs ("invalid/vehicle_images/" ++ sub ++ "/" ++ name))
        ("unlabeled/" ++ sub ++ "/" ++ name) = some c := by
      unfold lookupFS removeFS
      rw [lookup_filter_ne _ _ _ hneq]
      exact hsrc
    rw [hl]

/-- Witness for C3_subdir_preserved at a concrete input. -/
theorem C3_subdir_preserved_witness :
    cleanRel "Goa/Ambre_Colony" = true ∧
    cleanSeg ("12.jpg" : String).data = true ∧
    lookupFS [("unlabeled/Goa/Ambre_Colony/12.jpg", "d")]
      ("unlabeled/" ++ "Goa/Ambre_Colony" ++ "/" ++ "12.jpg") = some "d" ∧
    (move_image ("unlabeled/" ++ "Goa/Ambre_Colony" ++ "/" ++ "12.jpg")
      INVALID_VEHICLE none [("unlabeled/Goa/Ambre_Colony/12.jpg", "d")]).1 =
      some ("invalid/vehicle_images/" ++ "Goa/Ambre_Colony" ++ "/" ++ "12.jpg") :=
  ⟨by decide, by decide, by decide,
    C3_subdir_preserved "Goa/Ambre_Colony" "12.jpg"
      [("unlabeled/Goa/Ambre_Colony/12.jpg", "d")] "d"
      (by decide) (by decide) (by decide)⟩

-- ## Inventory lemmas (for C9)

lemma walkImages_wf (fs : FS) (wf : fs.all (fun e => cleanRel e.1) = true)
    (d : String) :
    walkImages fs d = (fs.filter (fun e =>
      strStartsWith e.1 (d ++ "/") && isImageFile e.1)).map (fun e => e.1) := by
  unfold walkImages
  apply List.map_congr_left
  intro e he
  have hc : cleanRel e.1 = true :=
    List.all_eq_true.mp wf e (List.mem_of_mem_filter he)
  rw [cleanRel_normPath hc, cleanRel_toSlashes hc]

lemma walk_mem_starts (fs : FS) (wf : fs.all (fun e => cleanRel e.1) = true)
    (d : String) :
    ∀ m ∈ walkImages fs d, strStartsWith m (d ++ "/") = true := by
  rw [walkImages_wf fs wf d]
  intro m hm
  obtain ⟨e, he, rfl⟩ := List.mem_map.mp hm
  have h2 := (List.mem_filter.mp he).2
  simp only [Bool.and_eq_true] at h2
  exact h2.1

lemma not_both_starts {p A B : String}
    (hA : strStartsWith p A = true) (hB : strStartsWith p B = true) :
    A.data.isPrefixOf B.data = true ∨ B.data.isPrefixOf A.data = true := by
  rcases le_total A.data.length B.data.length with h | h
  · exact Or.inl (isPre_of_isPre_of_le hA hB h)
  · exact Or.inr (isPre_of_isPre_of_le hB hA h)

lemma excl_of_not_pre {c d : String}
    (h1 : (c ++ "/").data.isPrefixOf ((d ++ "/").data) = false)
    (h2 : (d ++ "/").data.isPrefixOf ((c ++ "/").data) = false) :
    ∀ k : String, strStartsWith k (d ++ "/") = true →
      strStartsWith k (c ++ "/") = false := by
  intro k hk
  cases hx : strStartsWith k (c ++ "/") with
  | false => rfl
  | true =>
    rcases not_both_starts hx hk with h | h
    · rw [h1] at h
      exact absurd h (by simp)
    · rw [h2] at h
      exact absurd h (by simp)

lemma walk_filter_self (fs : FS) (wf : fs.all (fun e => cleanRel e.1) = true)
    (c : String) :
    (walkImages fs c).filter (fun p => strStartsWith p (c ++ "/")) =
      walkImages fs c :=
  List.filter_eq_self.mpr (walk_mem_starts fs wf c)

lemma walk_filter_other (fs : FS) (wf : fs.all (fun e => cleanRel e.1) = true)
    (c d : String)
    (hcd : ∀ k : String, strStartsWith k (d ++ "/") = true →
      strStartsWith k (c ++ "/") = false) :
    (walkImages fs d).filter (fun p => strStartsWith p (c ++ "/")) = [] := by
  apply List.filter_eq_nil_iff.mpr
  intro m hm
  rw [hcd m (walk_mem_starts fs wf d m hm)]
  simp

lemma count_eq_walk_length (fs : FS) (d : String) :
    count_images_in_directory fs d = (walkImages fs d).length := by
  unfold count_images_in_directory walkImages
  rw [List.length_map]

/-- C9: on every well-formed filesystem (canonical relative keys), each
category's count equals the number of `get_all_images` entries lying under
that category's configured root: both walk the same four roots with the
same case-insensitive recognized-extension filter. -/
theorem C9_counts_match_listing (fs : FS)
    (wf : fs.all (fun e => cleanRel e.1) = true) :
    (get_image_counts fs).unlabeled = ((get_all_images fs).filter
      (fun p => strStartsWith p (UNLABELED ++ "/"))).length ∧
    (get_image_counts fs).valid = ((get_all_images fs).filter
      (fun p => strStartsWith p (VALID_VEHICLE ++ "/"))).length ∧
    (get_image_counts fs).invalid = ((get_all_images fs).filter
      (fun p => strStartsWith p (INVALID_VEHICLE ++ "/"))).length ∧
    (get_image_counts fs).skipped = ((get_all_images fs).filter
      (fun p => strStartsWith p (SKIPPED_VEHICLE ++ "/"))).length := by
  have hlist : get_all_images fs =
      walkImages fs UNLABELED ++ walkImages fs VALID_VEHICLE ++
      walkImages fs INVALID_VEHICLE ++ walkImages fs SKIPPED_VEHICLE := by
    simp [get_all_images]
  refine ⟨?_, ?_, ?_, ?_⟩
  · rw [hlist]
    simp only [List.filter_append, List.length_append]
    rw [walk_filter_self fs wf UNLABELED,
      walk_filter_other fs wf UNLABELED VALID_VEHICLE
        (excl_of_not_pre (by decide) (by decide)),
      walk_filter_other fs wf UNLABELED INVALID_VEHICLE
        (excl_of_not_pre (by decide) (by decide)),
      walk_filter_other fs wf UNLABELED SKIPPED_VEHICLE
        (excl_of_not_pre (by decide) (by decide))]
    simp [get_image_counts, count_eq_walk_length]
  · rw [hlist]
    simp only [List.filter_append, List.length_append]
    rw [walk_filter_self fs wf VALID_VEHICLE,
      walk_filter_other fs wf VALID_VEHICLE UNLABELED
        (excl_of_not_pre (by decide) (by decide)),
      walk_filter_other fs wf VALID_VEHICLE INVALID_VEHICLE
        (excl_of_not_pre (by decide) (by decide)),
      walk_filter_other fs wf VALID_VEHICLE SKIPPED_VEHICLE
        (excl_of_not_pre (by decide) (by decide))]
    simp [get_image_counts, count_eq_walk_length]
  · rw [hlist]
    simp only [List.filter_append, List.length_append]
    rw [walk_filter_self fs wf INVALID_VEHICLE,
      walk_filter_other fs wf INVALID_VEHICLE UNLABELED
        (excl_of_not_pre (by decide) (by decide)),
      walk_filter_other fs wf INVALID_VEHICLE VALID_VEHICLE
        (excl_of_not_pre (by decide) (by decide)),
      walk_filter_other fs wf INVALID_VEHICLE SKIPPED_VEHICLE
        (excl_of_not_pre (by decide) (by decide))]
    simp [get_image_counts, count_eq_walk_length]
  · rw [hlist]
    simp only [List.filter_append, List.length_append]
    rw [walk_filter_self fs wf SKIPPED_VEHICLE,
      walk_filter_other fs wf SKIPPED_VEHICLE UNLABELED
        (excl_of_not_pre (by decide) (by decide)),
      walk_filter_other fs wf SKIPPED_VEHICLE VALID_VEHICLE
        (excl_of_not_pre (by decide) (by decide)),
      walk_filter_other fs wf SKIPPED_VEHICLE INVALID_VEHICLE
        (excl_of_not_pre (by decide) (by decide))]
    simp [get_image_counts, count_eq_walk_length]

/-- Witness for C9_counts_match_listing at a concrete input. -/
theorem C9_counts_match_listing_witness :
    ([("unlabeled/a.jpg", "1"),
      ("valid/vehicle_images_with_label/b/c.png", "2")] : FS).all
      (fun e => cleanRel e.1) = true ∧
    (get_image_counts [("unlabeled/a.jpg", "1"),
        ("valid/vehicle_images_with_label/b/c.png", "2")]).unlabeled =
      ((get_all_images [("unlabeled/a.jpg", "1"),
          ("valid/vehicle_images_with_label/b/c.png", "2")]).filter
        (fun p => strStartsWith p (UNLABELED ++ "/"))).length ∧
    (get_image_counts [("unlabeled/a.jpg", "1"),
        ("valid/vehicle_images_with_label/b/c.png", "2")]).valid =
      ((get_all_images [("unlabeled/a.jpg", "1"),
          ("valid/vehicle_images_with_label/b/c.png", "2")]).filter
        (fun p => strStartsWith p (VALID_VEHICLE ++ "/"))).length :=
  ⟨by decide,
    (C9_counts_match_listing [("unlabeled/a.jpg", "1"),
      ("valid/vehicle_images_with_label/b/c.png", "2")] (by decide)).1,
    (C9_counts_match_listing [("unlabeled/a.jpg", "1"),
      ("valid/vehicle_images_with_label/b/c.png", "2")] (by decide)).2.1⟩

-- Sanity checks of the embedding on concrete inputs (kept as examples).
example : pyExt "unlabeled/Goa/12.jpg" = ".jpg" := by decide
example : pyExt "a/.bashrc" = "" := by decide
example : pyDirname "Goa/Ambre_Colony/12.jpg" = "Goa/Ambre_Colony" := by decide
example : pyDirname "12.jpg" = "" := by decide
example : pyJoin "invalid/vehicle_images" "" = "invalid/vehicle_images/" := by decide
example : normPath "unlabeled/../../secret.jpg" = "../secret.jpg" := by decide
example :
    move_image "unlabeled/Goa/Ambre_Colony/12.jpg" INVALID_VEHICLE none
      [("unlabeled/Goa/Ambre_Colony/12.jpg", "d")] =
    (some "invalid/vehicle_images/Goa/Ambre_Colony/12.jpg",
     [("invalid/vehicle_images/Goa/Ambre_Colony/12.jpg", "d")]) := by decide
example :
    move_image "invalid/vehicle_images/a.jpg" INVALID_VEHICLE none
      [("invalid/vehicle_images/a.jpg", "imgdata")] = (none, []) := by decide
